import Mathlib

/-!
Verification of the fail2ban-ui settings-and-action-synchronization and
ban-log aggregation subsystems.

Shallow embedding of the Go sources:
  internal/config/settings.go   (settings store, action-file synthesizer)
  internal/fail2ban/logparse.go (ban-log parser and most-recent query)
  internal/fail2ban/client.go   (jail status aggregator)
  jail config reconciler        (GetAllJails / UpdateJailEnabledStates)

Go strings are embedded as `List Char` (`GoStr`); Go slices as `List`;
Go maps as association lists or as finitely-updated functions, matching
how each source function actually touches the map.  File-system and
process effects are passed in as explicit oracle arguments; a Go
`error` result becomes an `Option` value.
-/

/-- Go strings, embedded as lists of characters. -/
abbrev GoStr := List Char

namespace F2BUI

/-! ### Generic Go string helpers (strings package semantics) -/

/-- `unicode.IsSpace`: the set of white-space runes Go's
`strings.TrimSpace` strips. -/
def goUniIsSpace (c : Char) : Bool :=
  let n := c.toNat
  n = 0x20 || (0x9 ≤ n && n ≤ 0xd) || n = 0x85 || n = 0xa0 ||
  n = 0x1680 || (0x2000 ≤ n && n ≤ 0x200a) || n = 0x2028 || n = 0x2029 ||
  n = 0x202f || n = 0x205f || n = 0x3000

/-- `strings.TrimSpace`: drop white space from both ends. -/
def goTrimSpace (s : GoStr) : GoStr :=
  ((s.dropWhile goUniIsSpace).reverse.dropWhile goUniIsSpace).reverse

/-- `strings.Trim(s, cutset)`: drop any run of cutset characters from
both ends. -/
def goTrimCutset (cut : GoStr) (s : GoStr) : GoStr :=
  ((s.dropWhile (fun c => cut.contains c)).reverse.dropWhile
    (fun c => cut.contains c)).reverse

/-- `strings.HasPrefix`. -/
def goStartsWith : GoStr → GoStr → Bool
  | [], _ => true
  | _ :: _, [] => false
  | p :: ps, c :: cs => p = c && goStartsWith ps cs

/-- `strings.HasSuffix`. -/
def goEndsWith (p s : GoStr) : Bool :=
  goStartsWith p.reverse s.reverse

/-- `strings.Contains`: `n` occurs as a contiguous substring of `h`. -/
def goContainsSub (n : GoStr) : GoStr → Bool
  | [] => goStartsWith n []
  | c :: cs => goStartsWith n (c :: cs) || goContainsSub n cs

/-- `strings.Split(s, sep)` for a one-character separator: Go splits on
every occurrence and always returns at least one (possibly empty)
piece. -/
def splitc (sep : Char) : GoStr → List GoStr
  | [] => [[]]
  | c :: cs =>
    match splitc sep cs with
    | [] => [[]]
    | p :: ps => if c = sep then [] :: p :: ps else (c :: p) :: ps

/-- `strings.Join(parts, sep)`. -/
def goJoin (sep : GoStr) : List GoStr → GoStr
  | [] => []
  | [x] => x
  | x :: y :: xs => x ++ sep ++ goJoin sep (y :: xs)

/-- `strings.ToLower` restricted to the ASCII data the program handles. -/
def goToLower (s : GoStr) : GoStr := s.map Char.toLower

/-- Membership of a string in a list of strings; embeds the Go map
`m[x]` membership test built from the list's elements. -/
def lmem (x : GoStr) : List GoStr → Bool
  | [] => false
  | y :: ys => x = y || lmem x ys

/-! ### Settings data model (settings.go) -/

/-- `SMTPSettings` from settings.go. -/
structure SMTPSettings where
  host : GoStr
  port : Int
  username : GoStr
  password : GoStr
  fromAddr : GoStr
  useTLS : Bool
  deriving DecidableEq, Repr

/-- `AppSettings` from settings.go. -/
structure AppSettings where
  language : GoStr
  debug : Bool
  reloadNeeded : Bool
  alertCountries : List GoStr
  smtp : SMTPSettings
  bantimeIncrement : Bool
  ignoreIP : GoStr
  bantime : GoStr
  findtime : GoStr
  maxretry : Int
  destemail : GoStr
  deriving DecidableEq, Repr

/-- `equalStringSlices` from settings.go: false when the lengths
differ, otherwise true exactly when every element of `b` is a key of
the map built from `a`'s elements. -/
def equalStringSlices (a b : List GoStr) : Bool :=
  if a.length ≠ b.length then false
  else b.all (fun x => lmem x a)

/-- `UpdateSettings` from settings.go, pure core: merges the incoming
value, forcing `reloadNeeded` when one of the six compared policy
fields differs, otherwise OR-ing with the previous flag; then forcing
it when `equalStringSlices` reports the alert-country lists unequal.
The merged value is stored as the new in-memory settings and
returned. -/
def UpdateSettings (old nw : AppSettings) : AppSettings :=
  let n1 :=
    if old.bantimeIncrement ≠ nw.bantimeIncrement ∨
       old.ignoreIP ≠ nw.ignoreIP ∨
       old.bantime ≠ nw.bantime ∨
       old.findtime ≠ nw.findtime ∨
       old.destemail ≠ nw.destemail ∨
       old.maxretry ≠ nw.maxretry then
      { nw with reloadNeeded := true }
    else
      { nw with reloadNeeded := nw.reloadNeeded || old.reloadNeeded }
  if equalStringSlices old.alertCountries nw.alertCountries then n1
  else { n1 with reloadNeeded := true }

/-- The policy-affecting difference `UpdateSettings` tests for: any of
the six plainly compared fields differs, or `equalStringSlices` reports
the alert-country lists unequal. -/
def policyFieldsDiffer (old nw : AppSettings) : Prop :=
  old.bantimeIncrement ≠ nw.bantimeIncrement ∨
  old.ignoreIP ≠ nw.ignoreIP ∨
  old.bantime ≠ nw.bantime ∨
  old.findtime ≠ nw.findtime ∨
  old.destemail ≠ nw.destemail ∨
  old.maxretry ≠ nw.maxretry ∨
  equalStringSlices old.alertCountries nw.alertCountries = false

instance (old nw : AppSettings) : Decidable (policyFieldsDiffer old nw) := by
  unfold policyFieldsDiffer
  infer_instance

/-- The normalization `setDefaults` (settings.go) applies to the
alert-country list at bootstrap: a Go `nil` slice (modelled `none`)
becomes the sentinel `["ALL"]`; any non-nil slice — including the empty
one — is left untouched. -/
def setDefaultsAlertCountries : Option (List GoStr) → List GoStr
  | none => [("ALL").data]
  | some l => l

/-- Error outcomes of the persistence path of `saveSettings`
(settings.go). -/
inductive SaveErr where
  | marshalErr
  | actionErr
  deriving DecidableEq, Repr

/-- `saveSettings` from settings.go, with the three effectful steps
passed in as oracles: JSON marshalling, `os.WriteFile` of the settings
file, and `writeFail2banAction`.  A marshalling failure is returned; a
settings-file write failure is only logged (`writeOk` is consulted
nowhere), and the function returns whatever `writeFail2banAction`
returns. -/
def saveSettings (marshalOk : Bool) (writeOk : Bool) (actionOk : Bool) :
    Option SaveErr :=
  if marshalOk = false then some SaveErr.marshalErr
  else
    -- `err = os.WriteFile(...); if err != nil { DebugLog(...) }`:
    -- the error is dropped, not returned.
    let _ := writeOk
    if actionOk = false then some SaveErr.actionErr else none

/-- `UpdateSettings` including its persistence tail: the merged value
is installed in memory first, then `saveSettings` runs; the installed
value is returned together with the persistence outcome and is not
rolled back on failure. -/
def UpdateSettingsFull (old nw : AppSettings)
    (marshalOk writeOk actionOk : Bool) : AppSettings × Option SaveErr :=
  (UpdateSettings old nw, saveSettings marshalOk writeOk actionOk)

/-- Set-equality of two string lists: same set of codes, duplicates
and order disregarded.  This is the comparison claim C4 ascribes to
the program. -/
def listSetEq (a b : List GoStr) : Bool :=
  a.all (fun x => lmem x b) && b.all (fun x => lmem x a)

/-! ### Ban-log parser (logparse.go)

The line pattern is
`^(\S+\s+\S+) fail2ban\.actions.*?\[\d+\]: NOTICE\s+\[(\S+)\]\s+Ban\s+(\S+)`.
Because every quantified character class in it is complemented by the
character that must follow (`\S+` before white space or a literal
space, `\d+` before `]`, `\s+` before a non-space), Go's
leftmost-first matching is deterministic: each greedy run is the
maximal one, the lazy `.*?` stops at the earliest offset where the
tail matches, and in `\[(\S+)\]` the capture is the maximal non-space
run with its final `]` peeled off (any shorter split puts a non-space
character where `\s+` must match).  The functions below embed exactly
that. -/

/-- A parsed wall-clock instant (naive local time, millisecond
precision), the result of `time.Parse("2006-01-02 15:04:05,000", ·)`. -/
structure Timestamp where
  year : Nat
  month : Nat
  day : Nat
  hour : Nat
  minute : Nat
  second : Nat
  ms : Nat
  deriving DecidableEq, Repr

/-- Injective linearization of a timestamp; on in-range field values
its order is exactly the instant order `time.Time.After` uses. -/
def Timestamp.key (t : Timestamp) : Nat :=
  (((((t.year * 13 + t.month) * 32 + t.day) * 24 + t.hour) * 60 +
    t.minute) * 60 + t.second) * 1000 + t.ms

/-- `time.Time.After`: strict instant order. -/
def Timestamp.after (a b : Timestamp) : Bool := decide (b.key < a.key)

/-- `BanEvent` from logparse.go. -/
structure BanEvent where
  time : Timestamp
  jail : GoStr
  ip : GoStr
  logLine : GoStr
  deriving DecidableEq, Repr

/-- The inner loop of `sortByTimeDesc` for one outer index `i`: walk
the remainder comparing each element against the current slot with
`Time.After` (strict), swapping when a later element is strictly
newer; returns the element finally left in slot `i` and the remainder
as rearranged by the swaps. -/
def sortPass (c : BanEvent) : List BanEvent → BanEvent × List BanEvent
  | [] => (c, [])
  | x :: xs =>
    if Timestamp.after x.time c.time then
      let p := sortPass x xs
      (p.1, c :: p.2)
    else
      let p := sortPass c xs
      (p.1, x :: p.2)

/-- Fuelled form of `sortByTimeDesc`'s outer loop (the fuel is the
list length, which `sortPass` preserves, so it never runs out). -/
def sortByTimeDescFuel : Nat → List BanEvent → List BanEvent
  | 0, _ => []
  | _ + 1, [] => []
  | n + 1, x :: xs =>
    let p := sortPass x xs
    p.1 :: sortByTimeDescFuel n p.2

/-- `sortByTimeDesc` from logparse.go: the double swap loop, i.e.
selection sort into descending time order. -/
def sortByTimeDesc (l : List BanEvent) : List BanEvent :=
  sortByTimeDescFuel l.length l

/-- `GetLastFiveBans` from logparse.go.  Go map iteration order is
unspecified, so the map is taken as an association list and the claims
quantify over every order. -/
def GetLastFiveBans (eventsByJail : List (GoStr × List BanEvent)) :
    List BanEvent :=
  let allEvents := (eventsByJail.map Prod.snd).flatten
  (sortByTimeDesc allEvents).take 5

/-- Adjacent strict descent of timestamps, the reading of "sorted
strictly descending by timestamp". -/
def strictDescByTime : List BanEvent → Bool
  | [] => true
  | [_] => true
  | a :: b :: t => decide (b.time.key < a.time.key) && strictDescByTime (b :: t)

/-! ### Jail status aggregator (client.go) -/

/-- `JailInfo` from client.go. -/
structure JailInfo where
  jailName : GoStr
  totalBanned : Nat
  newInLastHour : Nat
  bannedIPs : List GoStr
  deriving DecidableEq, Repr

/-- `GetJails` from client.go, applied to the captured output of
`fail2ban-client status`: scan all lines, and on each line containing
the marker `Jail list:` take the text between the first and second
colon, trim it, split on commas and trim each piece (later marker
lines overwrite earlier ones; with no marker line the result is
empty). -/
def GetJails (out : GoStr) : List GoStr :=
  (splitc '\n' out).foldl
    (fun jails line =>
      if goContainsSub (("Jail list:").data) line then
        match splitc ':' line with
        | _ :: p1 :: _ => (splitc ',' (goTrimSpace p1)).map goTrimSpace
        | _ => jails
      else jails)
    []

/-- The `newInLastHour` count of `BuildJailInfos`: events of the jail
strictly after the cutoff instant. -/
def countNewInLastHour (events : List BanEvent) (oneHourAgoKey : Nat) : Nat :=
  (events.filter (fun e => decide (oneHourAgoKey < e.time.key))).length

/-- The per-jail loop of `BuildJailInfos` (client.go): the external
address listing is an oracle `banned` (`none` = the control command
failed for that jail, which `continue`s past the jail); the parsed log
is `banHistory` (a total function, empty list for absent jails, as the
Go map lookup defaults). -/
def BuildJailInfos (jails : List GoStr)
    (banned : GoStr → Option (List GoStr))
    (banHistory : GoStr → List BanEvent) (oneHourAgoKey : Nat) :
    List JailInfo :=
  jails.filterMap (fun jail =>
    match banned jail with
    | none => none
    | some ips =>
      some { jailName := jail, totalBanned := ips.length,
             newInLastHour := countNewInLastHour (banHistory jail) oneHourAgoKey,
             bannedIPs := ips })

/-- `BuildJailInfos` including its failure handling: a `GetJails`
failure (`none`) aborts with the error; a `ParseBanLog` failure
(`none`) is replaced by an empty history and the aggregation still
succeeds. -/
def BuildJailInfosTop (jailsRes : Option (List GoStr))
    (histRes : Option (GoStr → List BanEvent))
    (banned : GoStr → Option (List GoStr)) (oneHourAgoKey : Nat) :
    Option (List JailInfo) :=
  match jailsRes with
  | none => none
  | some jails =>
    some (BuildJailInfos jails banned (histRes.getD (fun _ => []))
      oneHourAgoKey)

/-! ### Action-file renderer (writeFail2banAction, countries variant) -/

/-- A single-quote character. -/
def sq : Char := '\''

/-- The sentinel substitution at the top of `writeFail2banAction`: a
list that is exactly one entry whose lower-casing is `all` is replaced
by the one literal entry `CH DE IT FR UK US`; anything else is kept. -/
def actionCountriesList (alertCountries : List GoStr) : List GoStr :=
  match alertCountries with
  | [c] =>
    if goToLower c = ("all").data then [("CH DE IT FR UK US").data]
    else alertCountries
  | _ => alertCountries

/-- `fmt.Sprintf("' %s '", strings.Join(alertCountries, "' '"))`: the
value substituted for `%s` in the rendered action's guard. -/
def actionCountriesFormatted (alertCountries : List GoStr) : GoStr :=
  sq :: ' ' :: (goJoin [sq, ' ', sq] (actionCountriesList alertCountries) ++
    [' ', sq])

/-- The rendered guard `[[ " %s " =~ " $COUNTRY " ]]` of the action's
`actionban` line: for a country code without regex metacharacters the
bash `=~` test is containment of `" $COUNTRY "` in the literal
subject string `" <formatted> "`. -/
def actionGuardAdmits (alertCountries : List GoStr) (cc : GoStr) : Bool :=
  goContainsSub (' ' :: (cc ++ [' ']))
    (' ' :: (actionCountriesFormatted alertCountries ++ [' ']))

/-! ### Jail-enable reconciler (updateJailConfigFile and friends) -/

/-- A trimmed line `[`…`]` is a section header. -/
def isSectionHeaderLine (t : GoStr) : Bool :=
  goStartsWith (("[").data) t && goEndsWith (("]").data) t

/-- `strings.Trim(trimmed, "[]")`: the section name of a header line. -/
def sectionNameOf (t : GoStr) : GoStr := goTrimCutset (("[]").data) t

/-- `fmt.Sprintf("%t", b)`. -/
def boolText (b : Bool) : GoStr :=
  if b then ("true").data else ("false").data

/-- The substituted line `fmt.Sprintf("enabled = %t", val)`. -/
def enabledLineFor (b : Bool) : GoStr := ("enabled = ").data ++ boolText b

/-- First-match lookup in the update map (Go map keys are unique). -/
def alookup (k : GoStr) : List (GoStr × Bool) → Option Bool
  | [] => none
  | p :: ps => if p.1 = k then some p.2 else alookup k ps

/-- `delete(updates, k)`: remove the entry with key `k`. -/
def aerase (k : GoStr) : List (GoStr × Bool) → List (GoStr × Bool)
  | [] => []
  | p :: ps => if p.1 = k then ps else p :: aerase k ps

/-- The line scan of `updateJailConfigFile`: track the current section
name (initially empty), replace each `enabled`-prefixed line whose
current section is still in the update map by the map's value while
consuming that entry, keep every other line; returns the rewritten
lines and the unconsumed entries. -/
def scanJailLines : GoStr → List GoStr → List (GoStr × Bool) →
    List GoStr × List (GoStr × Bool)
  | _, [], upd => ([], upd)
  | cur, line :: rest, upd =>
    let t := goTrimSpace line
    if isSectionHeaderLine t then
      let p := scanJailLines (sectionNameOf t) rest upd
      (line :: p.1, p.2)
    else if goStartsWith (("enabled").data) t then
      match alookup cur upd with
      | some v =>
        let p := scanJailLines cur rest (aerase cur upd)
        (enabledLineFor v :: p.1, p.2)
      | none =>
        let p := scanJailLines cur rest upd
        (line :: p.1, p.2)
    else
      let p := scanJailLines cur rest upd
      (line :: p.1, p.2)

/-- `updateJailConfigFile` on the file's lines: the scan's rewritten
lines followed, for every entry left in the map, by an appended
section header and enabled line. -/
def updateJailConfigLines (lines : List GoStr)
    (updates : List (GoStr × Bool)) : List GoStr :=
  let p := scanJailLines [] lines updates
  p.1 ++ p.2.flatMap (fun q => ['[' :: (q.1 ++ (("]").data)), enabledLineFor q.2])

/-- `updateJailConfigFile` from file text to file text: split on
newlines, rewrite, re-join. -/
def updateJailConfigFile (input : GoStr) (updates : List (GoStr × Bool)) :
    GoStr :=
  goJoin ['\n'] (updateJailConfigLines (splitc '\n' input) updates)

/-- Spec-side characterization (not the scan itself): does the file
contain an `enabled`-prefixed line while the tracked current section
is `k`?  Exactly these sections' map entries get consumed. -/
def hasEnabledUnder : GoStr → List GoStr → GoStr → Bool
  | _, [], _ => false
  | cur, line :: rest, k =>
    let t := goTrimSpace line
    if isSectionHeaderLine t then hasEnabledUnder (sectionNameOf t) rest k
    else if goStartsWith (("enabled").data) t then
      decide (cur = k) || hasEnabledUnder cur rest k
    else hasEnabledUnder cur rest k

/-- The section names occurring in a file's lines ("jails found in the
file"). -/
def sectionNames (lines : List GoStr) : List GoStr :=
  lines.filterMap (fun line =>
    let t := goTrimSpace line
    if isSectionHeaderLine t then some (sectionNameOf t) else none)

/-! ### Concrete values used to instantiate hypotheses -/

/-- A concrete SMTP block. -/
def demoSMTP : SMTPSettings :=
  { host := ("smtp.example.com").data, port := 587,
    username := ("user").data, password := ("pw").data,
    fromAddr := ("noreply@example.com").data, useTLS := true }

/-- A concrete settings value with the reload flag already set. -/
def demoOld : AppSettings :=
  { language := ("en").data, debug := false, reloadNeeded := true,
    alertCountries := [("ALL").data], smtp := demoSMTP,
    bantimeIncrement := false, ignoreIP := ("127.0.0.1/8 ::1").data,
    bantime := ("48h").data, findtime := ("30m").data, maxretry := 3,
    destemail := ("alerts@example.com").data }

/-- The same policy values with the reload flag clear. -/
def demoNew : AppSettings := { demoOld with reloadNeeded := false }

/-- Settings with the country list `[CH, DE]` and a clear flag. -/
def demoChOld : AppSettings :=
  { demoOld with
    alertCountries := [("CH").data, ("DE").data]
    reloadNeeded := false }

/-- The same settings with the country list reordered to `[DE, CH]`. -/
def demoChNew : AppSettings :=
  { demoChOld with alertCountries := [("DE").data, ("CH").data] }

/-- The spec's scenario log line. -/
def demoLogLine : GoStr :=
  ("2023-01-20 10:15:30,123 fail2ban.actions [111]: NOTICE [sshd] Ban 10.0.0.5").data

/-- The instant the scenario line's timestamp parses to. -/
def demoTimestamp : Timestamp :=
  { year := 2023, month := 1, day := 20, hour := 10, minute := 15,
    second := 30, ms := 123 }

/-- The event the scenario line parses to. -/
def demoEvent : BanEvent :=
  { time := demoTimestamp, jail := ("sshd").data,
    ip := ("10.0.0.5").data, logLine := demoLogLine }

/-- A second event with the same timestamp but another address. -/
def demoEventTie : BanEvent :=
  { demoEvent with ip := ("10.0.0.6").data }

/-- The two-jail scenario list for the aggregator. -/
def demoJails : List GoStr := [("nginx-401").data, ("sshd").data]

/-- An address-listing oracle that fails for `nginx-401` and succeeds
for `sshd`. -/
def demoBanned : GoStr → Option (List GoStr) :=
  fun j => if j = ("sshd").data then some [("1.2.3.4").data] else none

/-- An address-listing oracle that succeeds (only) for the jail named
by the empty string. -/
def demoBannedEmptyJail : GoStr → Option (List GoStr) :=
  fun j => if j = [] then some [("1.2.3.4").data] else none

/-! ## Theorems -/

/-! ### Settings store: C1–C4 -/

theorem UpdateSettings_characterization (old nw : AppSettings) :
    UpdateSettings old nw =
      { nw with reloadNeeded :=
          if policyFieldsDiffer old nw then true
          else nw.reloadNeeded || old.reloadNeeded } := by
  simp only [UpdateSettings, policyFieldsDiffer]
  split_ifs <;> simp_all

/-- C1: for every prior state and payload, `UpdateSettings` stores the
payload's fields unchanged apart from `reloadNeeded`; if any
policy-affecting field differs — the six plainly compared fields, or
the alert-country lists per the program's own `equalStringSlices`
comparison (claim C4 examines that comparison itself) — the stored
`reloadNeeded` is forced true; if none differs it is the logical OR of
the payload's flag and the previous flag, so a previously-true flag is
never unset and an identical-valued update never forces the flag from
false to true. -/
theorem UpdateSettings_reload_flag (old nw : AppSettings) :
    (policyFieldsDiffer old nw →
      (UpdateSettings old nw).reloadNeeded = true) ∧
    (¬ policyFieldsDiffer old nw →
      (UpdateSettings old nw).reloadNeeded =
        (nw.reloadNeeded || old.reloadNeeded)) ∧
    (UpdateSettings old nw).language = nw.language ∧
    (UpdateSettings old nw).debug = nw.debug ∧
    (UpdateSettings old nw).alertCountries = nw.alertCountries ∧
    (UpdateSettings old nw).smtp = nw.smtp ∧
    (UpdateSettings old nw).bantimeIncrement = nw.bantimeIncrement ∧
    (UpdateSettings old nw).ignoreIP = nw.ignoreIP ∧
    (UpdateSettings old nw).bantime = nw.bantime ∧
    (UpdateSettings old nw).findtime = nw.findtime ∧
    (UpdateSettings old nw).maxretry = nw.maxretry ∧
    (UpdateSettings old nw).destemail = nw.destemail := by
  rw [UpdateSettings_characterization]
  refine ⟨fun h => ?_, fun h => ?_, rfl, rfl, rfl, rfl, rfl, rfl, rfl,
    rfl, rfl, rfl⟩
  · simp [h]
  · simp [h]

/-- Witness for C1 at a concrete input: identical policy fields, old
flag true, payload flag false — the hypothesis of the second conjunct
is satisfiable and the stored flag is the OR (true). -/
theorem UpdateSettings_reload_flag_witness :
    ¬ policyFieldsDiffer demoOld demoNew ∧
    (UpdateSettings demoOld demoNew).reloadNeeded =
      (demoNew.reloadNeeded || demoOld.reloadNeeded) :=
  ⟨by decide, (UpdateSettings_reload_flag demoOld demoNew).2.1 (by decide)⟩

/-- C2: at the failing input (marshalling succeeds, the settings-file
write fails, the action-file write succeeds) `UpdateSettings` returns
no error — `saveSettings` only logs the `os.WriteFile` error and
returns `writeFail2banAction()`'s result — although the claim (and the
spec) say a failure in either persistence step is returned.  The
no-rollback half of the claim does hold: the in-memory value is the
merged one. -/
theorem saveSettings_write_error_dropped (old nw : AppSettings) :
    (UpdateSettingsFull old nw true false true).2 = none ∧
    (UpdateSettingsFull old nw true false true).1 = UpdateSettings old nw :=
  ⟨rfl, rfl⟩

/-- C3 counterexample: updating with an empty alert-country list
stores the empty list, not the all-match sentinel. -/
theorem UpdateSettings_empty_countries_stored :
    (UpdateSettings demoOld
      { demoOld with alertCountries := [] }).alertCountries = [] ∧
    (UpdateSettings demoOld
      { demoOld with alertCountries := [] }).alertCountries ≠
      [("ALL").data] := by
  constructor
  · decide
  · decide

/-- C3 amended: `UpdateSettings` performs no normalization — the
alert-country list is stored exactly as supplied, empty included; the
only sentinel defaulting is the bootstrap `setDefaults`, which
replaces a `nil` (absent) list by `["ALL"]` and leaves every non-nil
list, the empty one included, untouched. -/
theorem UpdateSettings_alertCountries_verbatim :
    (∀ old nw : AppSettings,
      (UpdateSettings old nw).alertCountries = nw.alertCountries) ∧
    setDefaultsAlertCountries none = [("ALL").data] ∧
    (∀ l, setDefaultsAlertCountries (some l) = l) := by
  refine ⟨fun old nw => ?_, rfl, fun l => rfl⟩
  rw [UpdateSettings_characterization]

theorem lmem_iff_mem (x : GoStr) (l : List GoStr) :
    lmem x l = true ↔ x ∈ l := by
  induction l with
  | nil => simp [lmem]
  | cons y ys ih => by_cases h : x = y <;> simp [lmem, h, ih]

theorem equalStringSlices_true_iff (a b : List GoStr) :
    equalStringSlices a b = true ↔
      a.length = b.length ∧ ∀ x ∈ b, x ∈ a := by
  unfold equalStringSlices
  by_cases h : a.length = b.length <;>
    simp [h, List.all_eq_true, lmem_iff_mem]

/-- C4 counterexample: the comparison is not set-equality — on
`a = [CH, DE]` and `b = [CH, CH]` it reports the lists equal although
they denote different sets of codes. -/
theorem equalStringSlices_not_set_equality :
    equalStringSlices [("CH").data, ("DE").data]
      [("CH").data, ("CH").data] = true ∧
    listSetEq [("CH").data, ("DE").data]
      [("CH").data, ("CH").data] = false := by
  constructor
  · decide
  · decide

/-- C4 amended: on duplicate-free lists the comparison is exactly
set-equality; on any pair of lists it is order-insensitive (a
permutation always compares equal), so an update that merely reorders
the same codes — with the other policy fields unchanged — never forces
the reload flag. -/
theorem equalStringSlices_set_like (a b : List GoStr) :
    (a.Nodup → b.Nodup →
      (equalStringSlices a b = true ↔ ∀ x, x ∈ a ↔ x ∈ b)) ∧
    (a.Perm b → equalStringSlices a b = true) ∧
    (∀ old nw : AppSettings, old.alertCountries = a →
      nw.alertCountries = b → a.Perm b →
      old.bantimeIncrement = nw.bantimeIncrement →
      old.ignoreIP = nw.ignoreIP → old.bantime = nw.bantime →
      old.findtime = nw.findtime → old.destemail = nw.destemail →
      old.maxretry = nw.maxretry →
      (UpdateSettings old nw).reloadNeeded =
        (nw.reloadNeeded || old.reloadNeeded)) := by
  have hperm : a.Perm b → equalStringSlices a b = true := by
    intro hp
    rw [equalStringSlices_true_iff]
    exact ⟨hp.length_eq, fun x hx => hp.mem_iff.mpr hx⟩
  refine ⟨fun ha hb => ?_, hperm, ?_⟩
  · rw [equalStringSlices_true_iff]
    constructor
    · rintro ⟨hlen, hsub⟩ x
      have hfin : b.toFinset = a.toFinset := by
        apply Finset.eq_of_subset_of_card_le
        · intro y hy
          exact List.mem_toFinset.mpr (hsub y (List.mem_toFinset.mp hy))
        · rw [List.toFinset_card_of_nodup ha, List.toFinset_card_of_nodup hb]
          exact le_of_eq hlen
      constructor
      · intro hx
        have := hfin ▸ List.mem_toFinset.mpr hx
        exact List.mem_toFinset.mp this
      · intro hx
        exact hsub x hx
    · intro hiff
      have hfin : a.toFinset = b.toFinset := by
        ext y
        simp [List.mem_toFinset, hiff y]
      constructor
      · have := congrArg Finset.card hfin
        rwa [List.toFinset_card_of_nodup ha,
          List.toFinset_card_of_nodup hb] at this
      · exact fun x hx => (hiff x).mpr hx
  · intro old nw hac hbc hp h1 h2 h3 h4 h5 h6
    rw [UpdateSettings_characterization]
    have hnd : ¬ policyFieldsDiffer old nw := by
      unfold policyFieldsDiffer
      push_neg
      refine ⟨h1, h2, h3, h4, h5, h6, ?_⟩
      rw [hac, hbc, hperm hp]
      simp
    simp [hnd]

/-- Witness for C4's amended claim at a concrete input: reordering
`[CH, DE]` to `[DE, CH]` compares equal and a second update with the
reordered list leaves the reload flag at the OR of the two flags
(false here). -/
theorem equalStringSlices_set_like_witness :
    equalStringSlices [("CH").data, ("DE").data]
      [("DE").data, ("CH").data] = true ∧
    (UpdateSettings demoChOld demoChNew).reloadNeeded = false :=
  ⟨(equalStringSlices_set_like [("CH").data, ("DE").data]
      [("DE").data, ("CH").data]).2.1 (by decide),
   by
    rw [(equalStringSlices_set_like [("CH").data, ("DE").data]
      [("DE").data, ("CH").data]).2.2 demoChOld demoChNew
      (by decide) (by decide) (by decide) rfl rfl rfl rfl rfl rfl]
    decide⟩

/-! ### Ban-log parser: C5 -/

theorem sortPass_snd_length (c : BanEvent) (l : List BanEvent) :
    (sortPass c l).2.length = l.length := by
  induction l generalizing c with
  | nil => rfl
  | cons x xs ih =>
    by_cases h : Timestamp.after x.time c.time = true
    · simp [sortPass, h, ih]
    · simp [sortPass, h, ih]

theorem sortPass_perm (c : BanEvent) (l : List BanEvent) :
    List.Perm ((sortPass c l).1 :: (sortPass c l).2) (c :: l) := by
  induction l generalizing c with
  | nil => exact List.Perm.refl _
  | cons x xs ih =>
    by_cases h : Timestamp.after x.time c.time = true
    · simp only [sortPass, h, if_pos]
      exact (List.Perm.swap c (sortPass x xs).1 (sortPass x xs).2).trans
        ((ih x).cons c)
    · have h' : Timestamp.after x.time c.time = false := by
        simpa using h
      simp only [sortPass, h', Bool.false_eq_true, if_false]
      exact ((List.Perm.swap x (sortPass c xs).1 (sortPass c xs).2).trans
        ((ih c).cons x)).trans (List.Perm.swap c x xs)

theorem sortPass_carried_le (c : BanEvent) (l : List BanEvent) :
    c.time.key ≤ (sortPass c l).1.time.key := by
  induction l generalizing c with
  | nil => exact le_refl _
  | cons x xs ih =>
    by_cases h : Timestamp.after x.time c.time = true
    · have hlt : c.time.key < x.time.key := by
        simpa [Timestamp.after] using h
      simp only [sortPass, h, if_pos]
      exact le_of_lt (lt_of_lt_of_le hlt (ih x))
    · simp only [sortPass, h, if_neg, Bool.not_eq_true]
      exact ih c

theorem sortPass_max (c : BanEvent) (l : List BanEvent) :
    ∀ y ∈ (sortPass c l).2, y.time.key ≤ (sortPass c l).1.time.key := by
  induction l generalizing c with
  | nil => intro y hy; simp [sortPass] at hy
  | cons x xs ih =>
    intro y hy
    by_cases h : Timestamp.after x.time c.time = true
    · have hlt : c.time.key < x.time.key := by
        simpa [Timestamp.after] using h
      simp only [sortPass, h, if_pos] at hy ⊢
      rcases List.mem_cons.mp hy with hy | hy
      · subst hy
        exact le_of_lt (lt_of_lt_of_le hlt (sortPass_carried_le x xs))
      · exact ih x y hy
    · have hle : x.time.key ≤ c.time.key := by
        simpa [Timestamp.after] using h
      simp only [sortPass, h, if_neg, Bool.not_eq_true] at hy ⊢
      rcases List.mem_cons.mp hy with hy | hy
      · subst hy
        exact le_trans hle (sortPass_carried_le c xs)
      · exact ih c y hy

theorem sortByTimeDescFuel_perm (n : Nat) (l : List BanEvent)
    (h : l.length ≤ n) : List.Perm (sortByTimeDescFuel n l) l := by
  induction n generalizing l with
  | zero =>
    have : l = [] := List.eq_nil_of_length_eq_zero (Nat.le_zero.mp h)
    subst this
    exact List.Perm.refl _
  | succ n ih =>
    cases l with
    | nil => exact List.Perm.refl _
    | cons x xs =>
      simp only [sortByTimeDescFuel]
      have hlen : (sortPass x xs).2.length ≤ n := by
        rw [sortPass_snd_length]
        exact Nat.le_of_succ_le_succ h
      exact ((ih _ hlen).cons _).trans (sortPass_perm x xs)

theorem sortByTimeDescFuel_pairwise (n : Nat) (l : List BanEvent)
    (h : l.length ≤ n) :
    List.Pairwise (fun a b => b.time.key ≤ a.time.key)
      (sortByTimeDescFuel n l) := by
  induction n generalizing l with
  | zero =>
    have : l = [] := List.eq_nil_of_length_eq_zero (Nat.le_zero.mp h)
    subst this
    simp [sortByTimeDescFuel]
  | succ n ih =>
    cases l with
    | nil => simp [sortByTimeDescFuel]
    | cons x xs =>
      simp only [sortByTimeDescFuel]
      have hlen : (sortPass x xs).2.length ≤ n := by
        rw [sortPass_snd_length]
        exact Nat.le_of_succ_le_succ h
      refine List.Pairwise.cons ?_ (ih _ hlen)
      intro y hy
      have hy2 : y ∈ (sortPass x xs).2 :=
        (sortByTimeDescFuel_perm n _ hlen).mem_iff.mp hy
      exact sortPass_max x xs y hy2

theorem sortByTimeDesc_perm (l : List BanEvent) :
    List.Perm (sortByTimeDesc l) l :=
  sortByTimeDescFuel_perm l.length l (le_refl _)

theorem sortByTimeDesc_pairwise (l : List BanEvent) :
    List.Pairwise (fun a b => b.time.key ≤ a.time.key)
      (sortByTimeDesc l) :=
  sortByTimeDescFuel_pairwise l.length l (le_refl _)

/-- C6 counterexample: with two events of equal timestamp the returned
list is not sorted strictly descending (the two equal instants are
adjacent). -/
theorem GetLastFiveBans_not_strictly_descending :
    strictDescByTime
      (GetLastFiveBans [((("sshd").data), [demoEvent, demoEventTie])]) =
      false := by decide

/-- C6 amended: for every per-jail event map (in any iteration order),
`GetLastFiveBans` returns the merged events sorted in non-increasing
(descending, ties adjacent) timestamp order — no element is strictly
newer than an earlier one — with length at most 5 and at most the
total number of events available, and the returned events are a
sub-multiset of the merged input events. -/
theorem GetLastFiveBans_spec (eventsByJail : List (GoStr × List BanEvent)) :
    List.Pairwise (fun a b => b.time.key ≤ a.time.key)
      (GetLastFiveBans eventsByJail) ∧
    (GetLastFiveBans eventsByJail).length ≤ 5 ∧
    (GetLastFiveBans eventsByJail).length ≤
      ((eventsByJail.map Prod.snd).flatten).length ∧
    (GetLastFiveBans eventsByJail).Subperm
      ((eventsByJail.map Prod.snd).flatten) := by
  unfold GetLastFiveBans
  refine ⟨?_, ?_, ?_, ?_⟩
  · exact (sortByTimeDesc_pairwise _).sublist (List.take_sublist _ _)
  · exact List.length_take_le 5 _
  · have hlen := (sortByTimeDesc_perm
      ((eventsByJail.map Prod.snd).flatten)).length_eq
    exact (List.take_sublist 5 _).length_le.trans (le_of_eq hlen)
  · exact ((List.take_sublist _ _).subperm).trans
      (sortByTimeDesc_perm _).subperm

/-! ### Jail status aggregator: C7 -/

/-- C7: per-jail address-listing failures are isolated.  For every
jail list produced by the enumeration step: the names in
`BuildJailInfos`'s result are exactly the jails whose address listing
succeeded, in order (a failing jail is omitted); every jail whose
listing succeeds contributes its `JailInfo`; and the aggregation as a
whole still succeeds (is `some`, never an error) whatever the per-jail
outcomes and whether or not the log parse succeeded. -/
theorem BuildJailInfos_partial_failure (jails : List GoStr)
    (banned : GoStr → Option (List GoStr))
    (hist : GoStr → List BanEvent) (now : Nat)
    (histRes : Option (GoStr → List BanEvent)) :
    (BuildJailInfos jails banned hist now).map JailInfo.jailName =
      jails.filter (fun j => (banned j).isSome) ∧
    (∀ j ips, j ∈ jails → banned j = some ips →
      ({ jailName := j, totalBanned := ips.length,
         newInLastHour := countNewInLastHour (hist j) now,
         bannedIPs := ips } : JailInfo) ∈
        BuildJailInfos jails banned hist now) ∧
    (BuildJailInfosTop (some jails) histRes banned now).isSome = true := by
  refine ⟨?_, ?_, rfl⟩
  · induction jails with
    | nil => rfl
    | cons j js ih =>
      cases h : banned j with
      | none => simp [BuildJailInfos, List.filterMap_cons, h,
          List.filter_cons] at ih ⊢; exact ih
      | some ips => simp [BuildJailInfos, List.filterMap_cons, h,
          List.filter_cons] at ih ⊢; exact ih
  · intro j ips hj hb
    induction jails with
    | nil => cases hj
    | cons j' js ih =>
      rcases List.mem_cons.mp hj with hj' | hj'
      · subst hj'
        simp [BuildJailInfos, List.filterMap_cons, hb]
      · cases h : banned j' with
        | none => simpa [BuildJailInfos, List.filterMap_cons, h]
            using ih hj'
        | some ips' =>
          have := ih hj'
          simp [BuildJailInfos, List.filterMap_cons, h] at this ⊢
          exact Or.inr this

/-- Witness for C7 at the spec's scenario: listing fails for
`nginx-401` and succeeds for `sshd`, so the aggregate contains exactly
`sshd`'s entry. -/
theorem BuildJailInfos_partial_failure_witness :
    (BuildJailInfos demoJails demoBanned (fun _ => []) 0).map
      JailInfo.jailName = [("sshd").data] ∧
    ({ jailName := ("sshd").data, totalBanned := 1,
       newInLastHour := countNewInLastHour ((fun _ => ([] : List BanEvent)) (("sshd").data)) 0,
       bannedIPs := [("1.2.3.4").data] } : JailInfo) ∈
      BuildJailInfos demoJails demoBanned (fun _ => []) 0 :=
  ⟨((BuildJailInfos_partial_failure demoJails demoBanned
        (fun _ => []) 0 none).1).trans (by decide),
   by
    have h := (BuildJailInfos_partial_failure demoJails demoBanned
        (fun _ => []) 0 none).2.1 (("sshd").data) [("1.2.3.4").data]
        (by decide) (by decide)
    simpa using h⟩

/-! ### Action-file renderer: C8 -/

/-- C8: contrary to the claim (and to the source's own "Match
everything" comment), the rendered guard does not admit every country
for the sentinel or empty sets: the `["ALL"]` sentinel is substituted
by the literal whitelist `CH DE IT FR UK US`, whose guard rejects
`RU` while admitting `DE`, and the empty set renders a guard that
rejects ordinary codes such as `DE` outright. -/
theorem actionGuard_sentinel_not_match_all :
    actionGuardAdmits [("ALL").data] (("RU").data) = false ∧
    actionGuardAdmits ([] : List GoStr) (("DE").data) = false ∧
    actionGuardAdmits [("ALL").data] (("DE").data) = true := by
  refine ⟨?_, ?_, ?_⟩
  · decide
  · decide
  · decide

/-! ### Jail-enable reconciler: C9 -/

theorem alookup_none_not_mem (k : GoStr) (upd : List (GoStr × Bool))
    (h : alookup k upd = none) : ∀ p ∈ upd, p.1 ≠ k := by
  induction upd with
  | nil => intro p hp; cases hp
  | cons q qs ih =>
    intro p hp
    by_cases hq : q.1 = k
    · simp [alookup, hq] at h
    · simp only [alookup, hq, if_neg, if_false] at h
      rcases List.mem_cons.mp hp with hp | hp
      · subst hp; exact hq
      · exact ih h p hp

theorem aerase_eq_filter (k : GoStr) (upd : List (GoStr × Bool))
    (hnd : (upd.map Prod.fst).Nodup) :
    aerase k upd = upd.filter (fun p => decide (p.1 ≠ k)) := by
  induction upd with
  | nil => rfl
  | cons q qs ih =>
    simp only [List.map_cons, List.nodup_cons] at hnd
    simp only [aerase, List.filter_cons]
    by_cases hq : q.1 = k
    · rw [if_pos hq]
      have hcond : (decide (q.1 ≠ k)) = false := by simp [hq]
      rw [hcond]
      simp only [Bool.false_eq_true, if_false]
      have hall : ∀ p ∈ qs, (decide (p.1 ≠ k)) = true := by
        intro p hp
        have hpk : p.1 ≠ k := by
          intro hpk
          exact hnd.1 (hq ▸ hpk ▸ List.mem_map_of_mem Prod.fst hp)
        simp [hpk]
      exact (List.filter_eq_self.mpr hall).symm
    · rw [if_neg hq]
      have hcond : (decide (q.1 ≠ k)) = true := by simp [hq]
      rw [hcond, ih hnd.2]
      simp

theorem aerase_keys_nodup (k : GoStr) (upd : List (GoStr × Bool))
    (hnd : (upd.map Prod.fst).Nodup) :
    ((aerase k upd).map Prod.fst).Nodup := by
  rw [aerase_eq_filter k upd hnd]
  exact ((upd.filter_sublist).map Prod.fst).nodup hnd

theorem scanJailLines_leftover (lines : List GoStr) :
    ∀ (cur : GoStr) (upd : List (GoStr × Bool)),
      (upd.map Prod.fst).Nodup →
      (scanJailLines cur lines upd).2 =
        upd.filter (fun p => !(hasEnabledUnder cur lines p.1)) := by
  induction lines with
  | nil =>
    intro cur upd _
    simp [scanJailLines, hasEnabledUnder]
  | cons line rest ih =>
    intro cur upd hnd
    by_cases hsec : isSectionHeaderLine (goTrimSpace line) = true
    · simp only [scanJailLines, hasEnabledUnder, hsec, if_pos]
      exact ih (sectionNameOf (goTrimSpace line)) upd hnd
    · by_cases hen : goStartsWith (("enabled").data) (goTrimSpace line) = true
      · cases hlk : alookup cur upd with
        | some v =>
          simp only [scanJailLines, hasEnabledUnder, hsec, hen,
            Bool.false_eq_true, if_false, if_pos, hlk]
          rw [ih cur (aerase cur upd) (aerase_keys_nodup cur upd hnd),
            aerase_eq_filter cur upd hnd, List.filter_filter]
          apply List.filter_congr
          intro p _
          by_cases hp : p.1 = cur
          · simp [hp]
          · have : ¬ (cur = p.1) := fun hh => hp hh.symm
            simp [hp, this]
        | none =>
          simp only [scanJailLines, hasEnabledUnder, hsec, hen,
            Bool.false_eq_true, if_false, if_pos, hlk]
          rw [ih cur upd hnd]
          apply List.filter_congr
          intro p hp
          have : ¬ (cur = p.1) :=
            fun hh => alookup_none_not_mem cur upd hlk p hp hh.symm
          simp [this]
      · simp only [scanJailLines, hasEnabledUnder, hsec, hen,
          Bool.false_eq_true, if_false]
        exact ih cur upd hnd

/-- C9 counterexample: in a primary file consisting of the section
`[sshd]` with a `port` line but no `enabled` line, the update for
`sshd` is not consumed, so a fresh `[sshd]` section with its enabled
line is appended — although `sshd` is found in the file — refuting
"appends exactly for the jails not found in that file". -/
theorem updateJailConfig_appends_found_jail :
    updateJailConfigLines [("[sshd]").data, ("port = 22").data]
        [((("sshd").data), false)] =
      [("[sshd]").data, ("port = 22").data, ("[sshd]").data,
        ("enabled = false").data] ∧
    lmem (("sshd").data)
      (sectionNames [("[sshd]").data, ("port = 22").data]) = true := by
  refine ⟨?_, ?_⟩
  · decide
  · decide

/-- C9 amended: `updateJailConfigFile` rewrites the primary file
substituting `enabled = <value>` lines per matching section and
consuming those entries from the map, and appends a new section with
its enabled line exactly for the entries left unconsumed — i.e.
exactly for the jails under whose section no `enabled`-prefixed line
occurs in the file (which includes jails whose section exists but
lacks an enabled line, not only jails absent from the file). -/
theorem updateJailConfig_appends_unconsumed (lines : List GoStr)
    (updates : List (GoStr × Bool))
    (hnd : (updates.map Prod.fst).Nodup) :
    (scanJailLines [] lines updates).2 =
      updates.filter (fun p => !(hasEnabledUnder [] lines p.1)) ∧
    updateJailConfigLines lines updates =
      (scanJailLines [] lines updates).1 ++
        (updates.filter
          (fun p => !(hasEnabledUnder [] lines p.1))).flatMap
          (fun q => ['[' :: (q.1 ++ (("]").data)), enabledLineFor q.2]) := by
  have h := scanJailLines_leftover lines [] updates hnd
  refine ⟨h, ?_⟩
  simp only [updateJailConfigLines]
  rw [h]

/-- Witness for C9's amended claim at a concrete input: with sections
`[sshd]` (with an enabled line) and `[postfix]` (without), and updates
for `sshd` and `nginx`, only `sshd`'s entry is consumed; `nginx`
(absent) is appended — and so is `postfix` when in the map. -/
theorem updateJailConfig_appends_unconsumed_witness :
    (scanJailLines []
        [("[sshd]").data, ("enabled = true").data, ("[postfix]").data]
        [((("sshd").data), false), ((("nginx").data), true)]).2 =
      [((("nginx").data), true)] ∧
    updateJailConfigLines
        [("[sshd]").data, ("enabled = true").data, ("[postfix]").data]
        [((("sshd").data), false), ((("nginx").data), true)] =
      [("[sshd]").data, ("enabled = false").data, ("[postfix]").data,
        ("[nginx]").data, ("enabled = true").data] :=
  have h := updateJailConfig_appends_unconsumed
    [("[sshd]").data, ("enabled = true").data, ("[postfix]").data]
    [((("sshd").data), false), ((("nginx").data), true)] (by decide)
  ⟨h.1.trans (by decide), h.2.trans (by decide)⟩

/-! ### GetJails on an empty jail list: C10 -/

theorem goStartsWith_append_self (p s : GoStr) :
    goStartsWith p (p ++ s) = true := by
  induction p with
  | nil => rfl
  | cons c cs ih => simp [goStartsWith, ih]

theorem goContainsSub_of_prefix (n h : GoStr)
    (hp : goStartsWith n h = true) : goContainsSub n h = true := by
  cases h with
  | nil => simpa [goContainsSub] using hp
  | cons c cs => simp [goContainsSub, hp]

theorem splitc_eq_single (c : Char) (l : GoStr) (h : c ∉ l) :
    splitc c l = [l] := by
  induction l with
  | nil => rfl
  | cons x xs ih =>
    have hx : ¬ (x = c) := fun he => h (he ▸ List.mem_cons_self x xs)
    rw [splitc, ih (fun hm => h (List.mem_cons_of_mem x hm))]
    simp [hx]

theorem splitc_ne_nil (c : Char) (l : GoStr) : splitc c l ≠ [] := by
  cases l with
  | nil => simp [splitc]
  | cons x xs =>
    rw [splitc]
    rcases h : splitc c xs with _ | ⟨p, ps⟩
    · simp
    · by_cases hx : x = c <;> simp [hx]

theorem splitc_append_sep (c : Char) (a b : GoStr) (ha : c ∉ a) :
    splitc c (a ++ c :: b) = a :: splitc c b := by
  induction a with
  | nil =>
    rw [List.nil_append, splitc]
    rcases h : splitc c b with _ | ⟨p, ps⟩
    · exact absurd h (splitc_ne_nil c b)
    · simp
  | cons x xs ih =>
    have hx : ¬ (x = c) := fun he => ha (he ▸ List.mem_cons_self x xs)
    rw [List.cons_append, splitc,
      ih (fun hm => ha (List.mem_cons_of_mem x hm))]
    simp [hx]

theorem goTrimSpace_of_all (w : GoStr)
    (h : ∀ c ∈ w, goUniIsSpace c = true) : goTrimSpace w = [] := by
  have h1 : List.dropWhile goUniIsSpace w = [] := by
    rw [List.dropWhile_eq_nil_iff]
    exact h
  simp [goTrimSpace, h1]

/-- C10: when the status output is the literal marker `Jail list:`
followed by white space only (an empty jail list), `GetJails` returns
the one-element list containing the empty string — not an empty list —
and `BuildJailInfos` consequently issues an address query for the jail
named by the empty string: when that query answers, the aggregate is
exactly the one entry for the empty-string jail. -/
theorem GetJails_empty_jail_list (w : GoStr)
    (hw : w.all (fun c => goUniIsSpace c && !(c = '\n')) = true) :
    GetJails ((("Jail list:").data) ++ w) = [[]] ∧
    (∀ (banned : GoStr → Option (List GoStr))
       (hist : GoStr → List BanEvent) (now : Nat) (ips : List GoStr),
       banned [] = some ips →
       BuildJailInfos (GetJails ((("Jail list:").data) ++ w))
           banned hist now =
         [{ jailName := [], totalBanned := ips.length,
            newInLastHour := countNewInLastHour (hist []) now,
            bannedIPs := ips }]) := by
  have hsp : ∀ c ∈ w, goUniIsSpace c = true ∧ c ≠ '\n' := by
    intro c hc
    have hh := List.all_eq_true.mp hw c hc
    simp only [Bool.and_eq_true, Bool.not_eq_true',
      decide_eq_false_iff_not] at hh
    exact hh
  have hnl : '\n' ∉ w := fun hin => (hsp _ hin).2 rfl
  have hcol : ':' ∉ w := by
    intro hin
    have h1 := (hsp _ hin).1
    have h2 : goUniIsSpace ':' = false := by decide
    rw [h2] at h1
    cases h1
  have hsplit : splitc '\n' ((("Jail list:").data) ++ w) =
      [(("Jail list:").data) ++ w] := by
    apply splitc_eq_single
    intro hm
    rcases List.mem_append.mp hm with h | h
    · exact absurd h (by decide)
    · exact hnl h
  have hcont : goContainsSub (("Jail list:").data)
      ((("Jail list:").data) ++ w) = true :=
    goContainsSub_of_prefix _ _ (goStartsWith_append_self _ _)
  have heq : (("Jail list:").data) ++ w =
      (("Jail list").data) ++ ':' :: w := by
    have : (("Jail list:").data) = (("Jail list").data) ++ [':'] := by
      decide
    rw [this, List.append_assoc, List.singleton_append]
  have hsplit2 : splitc ':' ((("Jail list:").data) ++ w) =
      [("Jail list").data, w] := by
    rw [heq, splitc_append_sep ':' _ w (by decide),
      splitc_eq_single ':' w hcol]
  have htrim : goTrimSpace w = [] :=
    goTrimSpace_of_all w (fun c hc => (hsp c hc).1)
  have hget : GetJails ((("Jail list:").data) ++ w) = [[]] := by
    unfold GetJails
    rw [hsplit]
    simp only [List.foldl_cons, List.foldl_nil, hcont, if_true]
    rw [hsplit2]
    show List.map goTrimSpace (splitc ',' (goTrimSpace w)) = [[]]
    rw [htrim]
    rfl
  refine ⟨hget, fun banned hist now ips hb => ?_⟩
  rw [hget]
  simp [BuildJailInfos, hb]

/-- Witness for C10 at the concrete status line `Jail list:` followed
by three spaces: the returned jail list is `[""]` and the aggregate
queries and reports the empty-string jail. -/
theorem GetJails_empty_jail_list_witness :
    GetJails ((("Jail list:").data) ++ (("   ").data)) = [[]] ∧
    BuildJailInfos (GetJails ((("Jail list:").data) ++ (("   ").data)))
        demoBannedEmptyJail (fun _ => []) 0 =
      [{ jailName := [], totalBanned := 1, newInLastHour := 0,
         bannedIPs := [("1.2.3.4").data] }] :=
  have h := GetJails_empty_jail_list (("   ").data) (by decide)
  ⟨h.1,
   (h.2 demoBannedEmptyJail (fun _ => []) 0 [("1.2.3.4").data]
     (by decide)).trans (by decide)⟩

end F2BUI
